import Mathlib

/-!
Shallow embedding of the reconciliation and transfer engine in
`download_files.py` (class `FileDownloader`), together with theorems checking
the natural-language specification against it.

Modelling conventions:
* Python byte strings are `List Nat` (one `Nat` per byte).
* JSON values returned by `response.json()` are the inductive `JSON`.
* Python dictionaries with string keys/values (the local-inventory dict) are
  association lists `List (String × String)`; assignment is `dinsert`
  (replace-in-place or append, matching dict update semantics).
* A directory is a list of entries; an entry carries its name, whether it is a
  regular file, and its readable content (`Except Unit Bytes`, where `.error`
  models a read that raises, e.g. a permission error or a non-regular entry).
* The HTTP library (`requests`) is modelled by an oracle `net : String →
  NetResult`: a GET either fails at connect / status check
  (`raise_for_status`), or yields a list of body chunks (as produced by
  `iter_content(1024)`) possibly followed by a mid-stream transport error.
* The gzip library is modelled by an abstract decompressor
  `gunzip : Bytes → Option Bytes` (`none` = corrupt stream, raising).
* The SHA-256 function of `hashlib` is an abstract digest `H : Bytes → String`.
* Exceptions are explicit: functions that can raise an exception that the
  source does not catch return the error in an `Option PyErr` / `Except PyErr`
  component; exceptions the source catches are handled exactly where the
  corresponding `except` clause sits.
-/

set_option autoImplicit false

/-- A JSON value, as returned by `response.json()`. -/
inductive JSON where
  | null
  | bool (b : Bool)
  | num (n : Int)
  | str (s : String)
  | arr (xs : List JSON)
  | obj (kvs : List (String × JSON))
deriving Repr

/-- Uncaught Python exception classes that the engine can raise. -/
inductive PyErr where
  | keyError
  | typeError
  | attributeError
  | osError
deriving DecidableEq, Repr

/-- Outcome of the manifest GET issued by `get_remote_files` (line 39):
a transport-level failure (`requests.RequestException` from `session.get`),
or an HTTP response with a status code and a body that either parses as JSON
(`some j`) or fails to parse (`none`). -/
inductive FetchOutcome where
  | transportError
  | response (status : Nat) (body : Option JSON)

/-- `get_remote_files` (lines 35–44): a single authenticated GET.
`raise_for_status` raises `requests.HTTPError` for status codes 400–599, and a
body that fails to parse raises `requests.JSONDecodeError`; both are
`requests.RequestException`s, so the `except` clause (line 42) catches them
and the function returns the Python list `[]` (modelled as `JSON.arr []`),
exactly as it does on a transport error. -/
def get_remote_files : FetchOutcome → JSON
  | .transportError => .arr []
  | .response status body =>
      if 400 ≤ status ∧ status < 600 then .arr []
      else match body with
        | some j => j
        | none => .arr []

/-- Python's `v.get(k, default)` attribute call (line 135): defined on a dict,
raises `AttributeError` on every other value (in particular on the list `[]`
that `get_remote_files` returns after a failed fetch). -/
def pyGetMethod (v : JSON) (k : String) (dflt : JSON) : Except PyErr JSON :=
  match v with
  | .obj kvs => .ok ((kvs.lookup k).getD dflt)
  | _ => .error .attributeError

/-- Python truthiness of a JSON value, for `if not remote_files:` (line 136). -/
def pyTruthy : JSON → Bool
  | .null => false
  | .bool b => b
  | .num n => n ≠ 0
  | .str s => s ≠ ""
  | .arr xs => !xs.isEmpty
  | .obj kvs => !kvs.isEmpty

/-- Python iteration `for x in v:` over a JSON value: lists yield their
elements, strings their characters, dicts their keys; other values raise
`TypeError`. -/
def pyIter : JSON → Except PyErr (List JSON)
  | .arr xs => .ok xs
  | .str s => .ok (s.data.map fun c => .str (String.singleton c))
  | .obj kvs => .ok (kvs.map fun p => .str p.1)
  | _ => .error .typeError

/-- Python subscript `v['k']` with a string key (lines 70, 71, 145, 153):
on a dict, a lookup raising `KeyError` when the key is absent; on any other
value a string subscript raises `TypeError`. -/
def pySubscript (v : JSON) (k : String) : Except PyErr JSON :=
  match v with
  | .obj kvs =>
      match kvs.lookup k with
      | some w => .ok w
      | none => .error .keyError
  | _ => .error .typeError

/-- Python membership `x in d` for a string-keyed dict `d` (line 146):
a string is looked up among the keys; lists and dicts are unhashable and
raise `TypeError`; other (hashable, non-string) values are never equal to a
string key. -/
def pyMem (x : JSON) (d : List (String × String)) : Except PyErr Bool :=
  match x with
  | .str s => .ok (d.lookup s).isSome
  | .arr _ => .error .typeError
  | .obj _ => .error .typeError
  | _ => .ok false

/-- Python's `s.rstrip(chars)` (line 122): removes from the END of `s` every
character that is a member of the set `chars` — it does NOT remove the suffix
string `chars`. -/
def pyRstrip (s : String) (chars : String) : String :=
  String.mk ((s.data.reverse.dropWhile fun c => c ∈ chars.data).reverse)

/-- Bytes of a file or of an HTTP body chunk. -/
abbrev Bytes := List Nat

deriving instance DecidableEq for Except

/-- One entry of a directory listing: its name, whether it is a regular file
(`f.is_file()`, line 50), and its content — `.error` models an entry whose
`open`/`read` raises (read failure or non-regular entry). -/
structure DirEntry where
  name : String
  isRegularFile : Bool
  content : Except Unit Bytes
deriving DecidableEq, Repr

/-- A directory is its list of entries (`glob('*')`, line 49). -/
abbrev Dir := List DirEntry

/-- `open(path, 'wb')` followed by writing `b`: creates the file if absent,
truncates and rewrites it if a regular file of that name exists, and raises
(`IsADirectoryError`, modelled as `.error ()`) if a non-regular entry of that
name occupies the path. -/
def writeFile (d : Dir) (n : String) (b : Bytes) : Except Unit Dir :=
  match d with
  | [] => .ok [⟨n, true, .ok b⟩]
  | e :: rest =>
      if e.name = n then
        if e.isRegularFile then .ok (⟨n, true, .ok b⟩ :: rest) else .error ()
      else
        match writeFile rest n b with
        | .ok rest' => .ok (e :: rest')
        | .error u => .error u

/-- Looking a path up in a directory: `none` when no entry of that name
exists, otherwise the entry's content. -/
def readFile (d : Dir) (n : String) : Option (Except Unit Bytes) :=
  match d with
  | [] => none
  | e :: rest => if e.name = n then some e.content else readFile rest n

/-- Python dict assignment `m[k] = v` (line 52): replaces the value in place
when the key is present, appends otherwise. -/
def dinsert (m : List (String × String)) (k v : String) : List (String × String) :=
  match m with
  | [] => [(k, v)]
  | (k', v') :: rest => if k' = k then (k, v) :: rest else (k', v') :: dinsert rest k v

/-- `calculate_checksum` (lines 55–65): hashes the file content in chunks;
any exception while opening or reading (`except Exception`, line 63) is caught
and the sentinel `""` is returned. `H` abstracts `hashlib.sha256(...)
.hexdigest()`. -/
def calculate_checksum (H : Bytes → String) (content : Except Unit Bytes) : String :=
  match content with
  | .ok b => H b
  | .error _ => ""

/-- `get_local_files` (lines 46–53): for every regular file directly in the
download directory, record name ↦ checksum in a fresh dict. -/
def get_local_files (H : Bytes → String) (d : Dir) : List (String × String) :=
  d.foldl (fun acc e =>
    if e.isRegularFile then dinsert acc e.name (calculate_checksum H e.content) else acc) []

/-- Behavior of the streaming GET `session.get(file_url, stream=True,
timeout=30)` (line 75) for one URL: either the connect or the status check
raises a `requests.RequestException` (`connectErr`), or the body arrives as
the chunks that `iter_content(1024)` yields (line 87), with `midErr = true`
when a transport error is raised during iteration after those chunks. -/
inductive NetResult where
  | connectErr
  | stream (chunks : List Bytes) (midErr : Bool)
deriving DecidableEq, Repr

/-- `download_file` (lines 67–96). The subscripts on lines 70–71 can raise
`KeyError`, and `self.download_dir / file_name` (line 72) raises `TypeError`
for a non-string name; neither is a `requests.RequestException`, so the
`except` clause (line 94) does not catch them and they propagate (returned in
the `Option PyErr` component, with the directory unchanged). A non-string URL
makes `requests` raise `MissingSchema`, a `RequestException`, caught like a
connect failure. On a successful connect, `open(file_path, 'wb')` (line 86)
creates/truncates the destination — `IsADirectoryError` propagates uncaught —
and the chunks received so far are on disk even when a mid-stream error then
aborts the transfer (caught, logged, `False`). Returns (directory after the
attempt, the function's boolean result, uncaught exception if any). -/
def download_file (net : String → NetResult) (dl : Dir) (file_info : JSON) :
    Dir × Bool × Option PyErr :=
  match pySubscript file_info "download_url" with
  | .error e => (dl, false, some e)
  | .ok urlJ =>
    match pySubscript file_info "file_name" with
    | .error e => (dl, false, some e)
    | .ok (.str file_name) =>
        match urlJ with
        | .str file_url =>
            match net file_url with
            | .connectErr => (dl, false, none)
            | .stream chunks midErr =>
                match writeFile dl file_name chunks.flatten with
                | .error _ => (dl, false, some .osError)
                | .ok dl' => (dl', !midErr, none)
        | _ => (dl, false, none)
    | .ok _ => (dl, false, some .typeError)

/-- `ungzip_file` (lines 98–129), acting on `file_path = download_dir /
file_name`. Checks existence, reads the first two bytes, compares them with
the gzip magic `b'\x1f\x8b'`; a non-match is logged and reported `True`
(skip-as-success) with no write. On a match, the stream is expanded
(`gunzip`) and written to `export_dir / file_name.rstrip('.gz')`; every
exception — missing file race, read failure, corrupt stream, write failure —
is caught by `except Exception` (line 127) and reported `False`. Returns the
export directory after the call and the boolean result. -/
def ungzip_file (gunzip : Bytes → Option Bytes) (dl ex : Dir) (file_name : String) :
    Dir × Bool :=
  match readFile dl file_name with
  | none => (ex, false)
  | some (.error _) => (ex, false)
  | some (.ok content) =>
      if content.take 2 ≠ [0x1f, 0x8b] then (ex, true)
      else
        match gunzip content with
        | none => (ex, false)
        | some plain =>
            match writeFile ex (pyRstrip file_name ".gz") plain with
            | .error _ => (ex, false)
            | .ok ex' => (ex', true)

/-- The planning loop of `sync_files` (lines 143–147): select, in catalog
order, the entries whose `file_name` is not a key of the local inventory.
`file_info['file_name']` (line 145) and the membership test (line 146) can
raise; the loop then aborts before any download starts. -/
def planLoop (remote_files : List JSON) (local_files : List (String × String)) :
    Except PyErr (List JSON) :=
  match remote_files with
  | [] => .ok []
  | file_info :: rest => do
      let nameJ ← pySubscript file_info "file_name"
      let isLocal ← pyMem nameJ local_files
      let tail ← planLoop rest local_files
      if isLocal then .ok tail else .ok (file_info :: tail)

/-- The download loop of `sync_files` (lines 151–155): one download attempt
per item, in plan order; on success, `file_info['file_name']` is re-read
(line 153) and the decompression stage runs on the downloaded path. An
uncaught exception stops the loop with the directories as they are at that
point. -/
def downloadLoop (net : String → NetResult) (gunzip : Bytes → Option Bytes)
    (dl ex : Dir) : List JSON → Dir × Dir × Option PyErr
  | [] => (dl, ex, none)
  | file_info :: rest =>
      match download_file net dl file_info with
      | (dl', _, some e) => (dl', ex, some e)
      | (dl', ok, none) =>
          if ok then
            match pySubscript file_info "file_name" with
            | .error e => (dl', ex, some e)
            | .ok (.str file_name) =>
                let (ex', _) := ungzip_file gunzip dl' ex file_name
                downloadLoop net gunzip dl' ex' rest
            | .ok _ => (dl', ex, some .typeError)
          else downloadLoop net gunzip dl' ex rest

/-- `sync_files` (lines 131–155): fetch the manifest, call
`.get("download_status", [])` on it (line 135 — an `AttributeError` when the
fetch failed and `get_remote_files` returned the list `[]`), return early on
an empty catalog, build the local inventory, plan, then download and
conditionally decompress. Returns (download dir, export dir, uncaught
exception if any). -/
def sync_files (H : Bytes → String) (net : String → NetResult)
    (gunzip : Bytes → Option Bytes) (manifest : FetchOutcome) (dl ex : Dir) :
    Dir × Dir × Option PyErr :=
  match pyGetMethod (get_remote_files manifest) "download_status" (.arr []) with
  | .error e => (dl, ex, some e)
  | .ok remoteJ =>
      if pyTruthy remoteJ = false then (dl, ex, none)
      else
        match pyIter remoteJ with
        | .error e => (dl, ex, some e)
        | .ok remote_files =>
            let local_files := get_local_files H dl
            match planLoop remote_files local_files with
            | .error e => (dl, ex, some e)
            | .ok files_to_download => downloadLoop net gunzip dl ex files_to_download

/-- A remote file descriptor as the specification's data model (§3) has it:
a `file_name` and a `download_url`. -/
structure RemoteFileDescriptor where
  file_name : String
  download_url : String
deriving DecidableEq, Repr

/-- The JSON dictionary shape in which the remote API serves a descriptor. -/
def descToJSON (d : RemoteFileDescriptor) : JSON :=
  .obj [("file_name", .str d.file_name), ("download_url", .str d.download_url)]

/-- The diff planner exactly as the specification words it (§4.3, §8):
`plan(C, I)` keeps, in `C`'s order, the descriptors whose `file_name` is not
a key of `I`. -/
def specPlan (C : List RemoteFileDescriptor) (I : List (String × String)) :
    List RemoteFileDescriptor :=
  C.filter fun d => !(I.lookup d.file_name).isSome

/-- The names of all entries of a directory. -/
def names (d : Dir) : List String := d.map (·.name)

/-- The names of the regular files of a directory. -/
def fileNames (d : Dir) : List String :=
  (d.filter fun e => e.isRegularFile).map (·.name)

/-- Every entry of the directory is a regular file (true of a directory the
engine populates itself: it only creates regular files). -/
def allFiles (d : Dir) : Prop := ∀ e ∈ d, e.isRegularFile

/-- The manifest response the remote API serves for a catalog of
descriptors: HTTP 200 with body `{"download_status": [...]}` (§6). -/
def manifestFor (C : List RemoteFileDescriptor) : FetchOutcome :=
  .response 200 (some (.obj [("download_status", .arr (C.map descToJSON))]))

theorem fileNames_cons (e : DirEntry) (d : Dir) :
    fileNames (e :: d) = if e.isRegularFile then e.name :: fileNames d else fileNames d := by
  by_cases h : e.isRegularFile <;> simp [fileNames, List.filter_cons, h]

theorem lookup_dinsert_self (m : List (String × String)) (k v : String) :
    (dinsert m k v).lookup k = some v := by
  induction m with
  | nil => simp [dinsert]
  | cons p rest ih =>
      obtain ⟨a, b⟩ := p
      by_cases h : a = k
      · simp [dinsert, h]
      · have hb : (k == a) = false := beq_eq_false_iff_ne.mpr (Ne.symm h)
        simp [dinsert, h, List.lookup, hb, ih]

theorem lookup_dinsert_ne (m : List (String × String)) (k v k' : String) (h : k' ≠ k) :
    (dinsert m k v).lookup k' = m.lookup k' := by
  have hb : (k' == k) = false := beq_eq_false_iff_ne.mpr h
  induction m with
  | nil => simp [dinsert, List.lookup, hb]
  | cons p rest ih =>
      obtain ⟨a, b⟩ := p
      by_cases hak : a = k
      · subst hak
        simp [dinsert, List.lookup, hb]
      · simp [dinsert, hak, List.lookup, ih]

theorem writeFile_ok_of_allFiles (d : Dir) (n : String) (b : Bytes) (h : allFiles d) :
    ∃ d', writeFile d n b = .ok d' := by
  induction d with
  | nil => exact ⟨_, rfl⟩
  | cons e rest ih =>
      have he : e.isRegularFile := h e (by simp)
      have hrest : allFiles rest := fun e' he' => h e' (by simp [he'])
      by_cases hn : e.name = n
      · exact ⟨⟨n, true, .ok b⟩ :: rest, by simp [writeFile, hn, he]⟩
      · obtain ⟨rest', hrest'⟩ := ih hrest
        exact ⟨e :: rest', by simp [writeFile, hn, hrest']⟩

theorem readFile_writeFile_self (d d' : Dir) (n : String) (b : Bytes)
    (h : writeFile d n b = .ok d') : readFile d' n = some (.ok b) := by
  induction d generalizing d' with
  | nil =>
      simp [writeFile] at h
      simp [← h, readFile]
  | cons e rest ih =>
      by_cases hn : e.name = n
      · by_cases hreg : e.isRegularFile
        · simp [writeFile, hn, hreg] at h
          simp [← h, readFile]
        · simp [writeFile, hn, hreg] at h
      · cases hw : writeFile rest n b with
        | ok rest' =>
            simp [writeFile, hn, hw] at h
            simp [← h, readFile, hn, ih rest' hw]
        | error u => simp [writeFile, hn, hw] at h

theorem readFile_writeFile_ne (d d' : Dir) (n : String) (b : Bytes) (m : String)
    (h : writeFile d n b = .ok d') (hm : m ≠ n) : readFile d' m = readFile d m := by
  induction d generalizing d' with
  | nil =>
      simp [writeFile] at h
      simp [← h, readFile, Ne.symm hm]
  | cons e rest ih =>
      by_cases hn : e.name = n
      · by_cases hreg : e.isRegularFile
        · simp [writeFile, hn, hreg] at h
          simp [← h, readFile, Ne.symm hm, hn]
        · simp [writeFile, hn, hreg] at h
      · cases hw : writeFile rest n b with
        | ok rest' =>
            simp [writeFile, hn, hw] at h
            by_cases hem : e.name = m
            · simp [← h, readFile, hem]
            · simp [← h, readFile, hem, ih rest' hw]
        | error u => simp [writeFile, hn, hw] at h

theorem allFiles_writeFile (d d' : Dir) (n : String) (b : Bytes)
    (h : writeFile d n b = .ok d') (hall : allFiles d) : allFiles d' := by
  induction d generalizing d' with
  | nil =>
      simp [writeFile] at h
      intro e' he'
      rw [← h] at he'
      simp at he'
      simp [he']
  | cons e rest ih =>
      have hrest : allFiles rest := fun x hx => hall x (by simp [hx])
      by_cases hn : e.name = n
      · by_cases hreg : e.isRegularFile
        · simp [writeFile, hn, hreg] at h
          intro e' he'
          rw [← h] at he'
          rcases List.mem_cons.mp he' with h1 | h2
          · simp [h1]
          · exact hrest e' h2
        · simp [writeFile, hn, hreg] at h
      · cases hw : writeFile rest n b with
        | ok rest' =>
            simp [writeFile, hn, hw] at h
            intro e' he'
            rw [← h] at he'
            rcases List.mem_cons.mp he' with h1 | h2
            · exact h1 ▸ hall e (by simp)
            · exact ih rest' hw hrest e' h2
        | error u => simp [writeFile, hn, hw] at h

theorem mem_fileNames_writeFile (d d' : Dir) (n : String) (b : Bytes)
    (h : writeFile d n b = .ok d') (m : String) (hm : m ∈ fileNames d) :
    m ∈ fileNames d' := by
  induction d generalizing d' with
  | nil => simp [fileNames] at hm
  | cons e rest ih =>
      by_cases hn : e.name = n
      · by_cases hreg : e.isRegularFile
        · simp [writeFile, hn, hreg] at h
          rw [fileNames_cons, hreg] at hm
          rw [← h, fileNames_cons]
          simp at hm ⊢
          rcases hm with h1 | h2
          · exact Or.inl (hn ▸ h1)
          · exact Or.inr h2
        · simp [writeFile, hn, hreg] at h
      · cases hw : writeFile rest n b with
        | ok rest' =>
            simp [writeFile, hn, hw] at h
            rw [← h, fileNames_cons]
            rw [fileNames_cons] at hm
            by_cases hreg : e.isRegularFile
            · rw [if_pos hreg] at hm
              rw [if_pos hreg]
              rcases List.mem_cons.mp hm with h1 | h2
              · exact h1 ▸ List.mem_cons_self _ _
              · exact List.mem_cons_of_mem _ (ih rest' hw h2)
            · rw [if_neg hreg] at hm
              rw [if_neg hreg]
              exact ih rest' hw hm
        | error u => simp [writeFile, hn, hw] at h

theorem self_mem_fileNames_writeFile (d d' : Dir) (n : String) (b : Bytes)
    (h : writeFile d n b = .ok d') : n ∈ fileNames d' := by
  induction d generalizing d' with
  | nil =>
      simp [writeFile] at h
      simp [← h, fileNames]
  | cons e rest ih =>
      by_cases hn : e.name = n
      · by_cases hreg : e.isRegularFile
        · simp [writeFile, hn, hreg] at h
          rw [← h, fileNames_cons]
          simp
        · simp [writeFile, hn, hreg] at h
      · cases hw : writeFile rest n b with
        | ok rest' =>
            simp [writeFile, hn, hw] at h
            rw [← h, fileNames_cons]
            by_cases hreg : e.isRegularFile
            · rw [if_pos hreg]
              exact List.mem_cons_of_mem _ (ih rest' hw)
            · rw [if_neg hreg]
              exact ih rest' hw
        | error u => simp [writeFile, hn, hw] at h

theorem mem_names_writeFile (d d' : Dir) (n : String) (b : Bytes)
    (h : writeFile d n b = .ok d') (m : String) (hm : m ∈ names d) : m ∈ names d' := by
  induction d generalizing d' with
  | nil => simp [names] at hm
  | cons e rest ih =>
      by_cases hn : e.name = n
      · by_cases hreg : e.isRegularFile
        · simp [writeFile, hn, hreg] at h
          simp [names, ← h] at hm ⊢
          rcases hm with h1 | h2
          · exact Or.inl (by rw [h1, hn])
          · exact Or.inr h2
        · simp [writeFile, hn, hreg] at h
      · cases hw : writeFile rest n b with
        | ok rest' =>
            simp [writeFile, hn, hw] at h
            simp [names, ← h] at hm ⊢
            rcases hm with h1 | h2
            · exact Or.inl h1
            · rcases ih rest' hw (by simp [names, h2]) with h3
              exact Or.inr (by simpa [names] using h3)
        | error u => simp [writeFile, hn, hw] at h

theorem foldl_inventory_lookup_isSome (H : Bytes → String) (d : Dir)
    (acc : List (String × String)) (n : String) :
    ((d.foldl (fun acc e =>
        if e.isRegularFile then dinsert acc e.name (calculate_checksum H e.content) else acc)
      acc).lookup n).isSome
    = ((acc.lookup n).isSome || decide (n ∈ fileNames d)) := by
  induction d generalizing acc with
  | nil => simp [fileNames]
  | cons e rest ih =>
      rw [List.foldl_cons]
      by_cases hreg : e.isRegularFile
      · rw [if_pos hreg, ih]
        by_cases hn : e.name = n
        · subst hn
          simp [fileNames_cons, hreg, lookup_dinsert_self]
        · have hn' : ¬n = e.name := fun hh => hn hh.symm
          simp [fileNames_cons, hreg, hn', lookup_dinsert_ne _ _ _ _ (Ne.symm hn)]
      · rw [if_neg hreg, ih]
        simp [fileNames_cons, hreg]

theorem lookup_get_local_files_isSome (H : Bytes → String) (d : Dir) (n : String) :
    ((get_local_files H d).lookup n).isSome = decide (n ∈ fileNames d) := by
  rw [get_local_files, foldl_inventory_lookup_isSome]
  simp

theorem foldl_inventory_lookup_of_not_mem (H : Bytes → String) (d : Dir)
    (acc : List (String × String)) (n : String) (hn : n ∉ names d) :
    (d.foldl (fun acc e =>
        if e.isRegularFile then dinsert acc e.name (calculate_checksum H e.content) else acc)
      acc).lookup n = acc.lookup n := by
  induction d generalizing acc with
  | nil => simp
  | cons e rest ih =>
      have hne : e.name ≠ n := fun hh => hn (by simp [names, hh])
      have hrest : n ∉ names rest := fun hh => hn (by simp [names] at hh ⊢; exact Or.inr hh)
      rw [List.foldl_cons]
      by_cases hreg : e.isRegularFile
      · rw [if_pos hreg, ih _ hrest, lookup_dinsert_ne _ _ _ _ (Ne.symm hne)]
      · rw [if_neg hreg, ih _ hrest]

theorem foldl_inventory_lookup_of_mem (H : Bytes → String) (d : Dir) (e : DirEntry)
    (hnod : (names d).Nodup) (he : e ∈ d) (hreg : e.isRegularFile) :
    ∀ acc, (d.foldl (fun (a : List (String × String)) (f : DirEntry) =>
        if f.isRegularFile then dinsert a f.name (calculate_checksum H f.content) else a)
      acc).lookup e.name = some (calculate_checksum H e.content) := by
  induction d with
  | nil => simp at he
  | cons f rest ih =>
      intro acc
      rw [List.foldl_cons]
      rcases List.mem_cons.mp he with h1 | h2
      · subst h1
        rw [if_pos hreg]
        have hnotin : e.name ∉ names rest := by
          simp [names] at hnod ⊢
          intro x hx hname
          exact hnod.1 x hx hname
        rw [foldl_inventory_lookup_of_not_mem H rest _ _ hnotin, lookup_dinsert_self]
      · have hnodrest : (names rest).Nodup := (List.nodup_cons.mp hnod).2
        exact ih hnodrest h2 _

theorem lookup_get_local_files_of_nodup (H : Bytes → String) (d : Dir) (e : DirEntry)
    (hnod : (names d).Nodup) (he : e ∈ d) (hreg : e.isRegularFile) :
    (get_local_files H d).lookup e.name = some (calculate_checksum H e.content) := by
  rw [get_local_files]
  exact foldl_inventory_lookup_of_mem H d e hnod he hreg []

theorem pySubscript_descToJSON_name (d : RemoteFileDescriptor) :
    pySubscript (descToJSON d) "file_name" = .ok (.str d.file_name) := rfl

theorem pySubscript_descToJSON_url (d : RemoteFileDescriptor) :
    pySubscript (descToJSON d) "download_url" = .ok (.str d.download_url) := rfl

theorem planLoop_map_descToJSON (C : List RemoteFileDescriptor)
    (I : List (String × String)) :
    planLoop (C.map descToJSON) I = .ok ((specPlan C I).map descToJSON) := by
  induction C with
  | nil => rfl
  | cons d C ih =>
      rw [List.map_cons]
      show (do
        let nameJ ← pySubscript (descToJSON d) "file_name"
        let isLocal ← pyMem nameJ I
        let tail ← planLoop (C.map descToJSON) I
        if isLocal then pure tail else pure (descToJSON d :: tail)) = _
      rw [pySubscript_descToJSON_name, ih]
      cases h : I.lookup d.file_name with
      | none => simp [pyMem, specPlan, List.filter_cons, h, Bind.bind, Except.bind, Pure.pure, Except.pure]
      | some v => simp [pyMem, specPlan, List.filter_cons, h, Bind.bind, Except.bind, Pure.pure, Except.pure]

theorem download_file_preserves (net : String → NetResult) (dl : Dir) (fi : JSON) :
    (∀ m, m ∈ names dl → m ∈ names (download_file net dl fi).1) ∧
    (∀ m, m ∈ fileNames dl → m ∈ fileNames (download_file net dl fi).1) := by
  cases h1 : pySubscript fi "download_url" with
  | error e => simp [download_file, h1]
  | ok urlJ =>
    cases h2 : pySubscript fi "file_name" with
    | error e => simp [download_file, h1, h2]
    | ok nameJ =>
      cases nameJ with
      | str file_name =>
          cases urlJ with
          | str file_url =>
              cases h3 : net file_url with
              | connectErr => simp [download_file, h1, h2, h3]
              | stream chunks midErr =>
                  cases h4 : writeFile dl file_name chunks.flatten with
                  | ok dl' =>
                      constructor
                      · intro m hm
                        simpa [download_file, h1, h2, h3, h4] using
                          mem_names_writeFile dl dl' file_name chunks.flatten h4 m hm
                      · intro m hm
                        simpa [download_file, h1, h2, h3, h4] using
                          mem_fileNames_writeFile dl dl' file_name chunks.flatten h4 m hm
                  | error u => simp [download_file, h1, h2, h3, h4]
          | null => simp [download_file, h1, h2]
          | bool b => simp [download_file, h1, h2]
          | num n => simp [download_file, h1, h2]
          | arr xs => simp [download_file, h1, h2]
          | obj kvs => simp [download_file, h1, h2]
      | null => simp [download_file, h1, h2]
      | bool b => simp [download_file, h1, h2]
      | num n => simp [download_file, h1, h2]
      | arr xs => simp [download_file, h1, h2]
      | obj kvs => simp [download_file, h1, h2]

theorem download_file_desc_stream (net : String → NetResult) (dl : Dir)
    (d : RemoteFileDescriptor) (chunks : List Bytes) (midErr : Bool)
    (hnet : net d.download_url = .stream chunks midErr) (hall : allFiles dl) :
    ∃ dl', download_file net dl (descToJSON d) = (dl', !midErr, none) ∧
      allFiles dl' ∧
      readFile dl' d.file_name = some (.ok chunks.flatten) ∧
      (∀ m, m ≠ d.file_name → readFile dl' m = readFile dl m) ∧
      (∀ m, m ∈ fileNames dl → m ∈ fileNames dl') ∧
      d.file_name ∈ fileNames dl' := by
  obtain ⟨dl', hw⟩ := writeFile_ok_of_allFiles dl d.file_name chunks.flatten hall
  exact ⟨dl',
    by simp [download_file, pySubscript_descToJSON_url, pySubscript_descToJSON_name, hnet, hw],
    allFiles_writeFile _ _ _ _ hw hall,
    readFile_writeFile_self _ _ _ _ hw,
    fun m hm => readFile_writeFile_ne _ _ _ _ m hw hm,
    fun m hm => mem_fileNames_writeFile _ _ _ _ hw m hm,
    self_mem_fileNames_writeFile _ _ _ _ hw⟩

theorem ungzip_file_preserves (gunzip : Bytes → Option Bytes) (dl ex : Dir)
    (file_name : String) :
    (∀ m, m ∈ names ex → m ∈ names (ungzip_file gunzip dl ex file_name).1) ∧
    (∀ m, m ∈ fileNames ex → m ∈ fileNames (ungzip_file gunzip dl ex file_name).1) := by
  cases h1 : readFile dl file_name with
  | none => simp [ungzip_file, h1]
  | some c =>
    cases c with
    | error u => simp [ungzip_file, h1]
    | ok content =>
        by_cases h2 : content.take 2 = [0x1f, 0x8b]
        · cases h3 : gunzip content with
          | none => simp [ungzip_file, h1, h2, h3]
          | some plain =>
              cases h4 : writeFile ex (pyRstrip file_name ".gz") plain with
              | ok ex' =>
                  constructor
                  · intro m hm
                    simpa [ungzip_file, h1, h2, h3, h4] using
                      mem_names_writeFile ex ex' _ plain h4 m hm
                  · intro m hm
                    simpa [ungzip_file, h1, h2, h3, h4] using
                      mem_fileNames_writeFile ex ex' _ plain h4 m hm
              | error u => simp [ungzip_file, h1, h2, h3, h4]
        · simp [ungzip_file, h1, h2]

theorem downloadLoop_preserves (net : String → NetResult) (gunzip : Bytes → Option Bytes)
    (plan : List JSON) : ∀ dl ex : Dir,
    (∀ m, m ∈ names dl → m ∈ names (downloadLoop net gunzip dl ex plan).1) ∧
    (∀ m, m ∈ fileNames dl → m ∈ fileNames (downloadLoop net gunzip dl ex plan).1) ∧
    (∀ m, m ∈ names ex → m ∈ names (downloadLoop net gunzip dl ex plan).2.1) ∧
    (∀ m, m ∈ fileNames ex → m ∈ fileNames (downloadLoop net gunzip dl ex plan).2.1) := by
  induction plan with
  | nil => intro dl ex; simp [downloadLoop]
  | cons fi rest ih =>
      intro dl ex
      have hdf := download_file_preserves net dl fi
      rcases hrun : download_file net dl fi with ⟨dl', ok, err⟩
      rw [hrun] at hdf
      simp only at hdf
      cases err with
      | some e =>
          simp [downloadLoop, hrun]
          exact ⟨hdf.1, hdf.2⟩
      | none =>
          cases hok : ok with
          | false =>
              subst hok
              have := ih dl' ex
              constructor
              · intro m hm
                simpa [downloadLoop, hrun] using (this.1 m (hdf.1 m hm))
              refine ⟨?_, ?_, ?_⟩
              · intro m hm
                simpa [downloadLoop, hrun] using (this.2.1 m (hdf.2 m hm))
              · intro m hm
                simpa [downloadLoop, hrun] using (this.2.2.1 m hm)
              · intro m hm
                simpa [downloadLoop, hrun] using (this.2.2.2 m hm)
          | true =>
              subst hok
              cases hname : pySubscript fi "file_name" with
              | error e =>
                  simp [downloadLoop, hrun, hname]
                  exact ⟨hdf.1, hdf.2⟩
              | ok nameJ =>
                  cases nameJ with
                  | str file_name =>
                      have hug := ungzip_file_preserves gunzip dl' ex file_name
                      rcases hex : ungzip_file gunzip dl' ex file_name with ⟨ex', fb⟩
                      rw [hex] at hug
                      simp only at hug
                      have := ih dl' ex'
                      constructor
                      · intro m hm
                        simpa [downloadLoop, hrun, hname, hex] using (this.1 m (hdf.1 m hm))
                      refine ⟨?_, ?_, ?_⟩
                      · intro m hm
                        simpa [downloadLoop, hrun, hname, hex] using (this.2.1 m (hdf.2 m hm))
                      · intro m hm
                        simpa [downloadLoop, hrun, hname, hex] using (this.2.2.1 m (hug.1 m hm))
                      · intro m hm
                        simpa [downloadLoop, hrun, hname, hex] using (this.2.2.2 m (hug.2 m hm))
                  | null => simp [downloadLoop, hrun, hname]; exact ⟨hdf.1, hdf.2⟩
                  | bool b => simp [downloadLoop, hrun, hname]; exact ⟨hdf.1, hdf.2⟩
                  | num n => simp [downloadLoop, hrun, hname]; exact ⟨hdf.1, hdf.2⟩
                  | arr xs => simp [downloadLoop, hrun, hname]; exact ⟨hdf.1, hdf.2⟩
                  | obj kvs => simp [downloadLoop, hrun, hname]; exact ⟨hdf.1, hdf.2⟩

theorem downloadLoop_desc_complete (net : String → NetResult)
    (gunzip : Bytes → Option Bytes) (C : List RemoteFileDescriptor) :
    ∀ dl ex : Dir, allFiles dl →
    (∀ d ∈ C, net d.download_url ≠ .connectErr) →
    ∃ dl' ex', downloadLoop net gunzip dl ex (C.map descToJSON) = (dl', ex', none) ∧
      allFiles dl' ∧
      (∀ m, m ∈ fileNames dl → m ∈ fileNames dl') ∧
      (∀ d ∈ C, d.file_name ∈ fileNames dl') := by
  induction C with
  | nil =>
      intro dl ex hall _
      exact ⟨dl, ex, rfl, hall, fun m hm => hm, by simp⟩
  | cons d C ih =>
      intro dl ex hall hnet
      have hd := hnet d (by simp)
      cases hnd : net d.download_url with
      | connectErr => exact absurd hnd hd
      | stream chunks midErr =>
          obtain ⟨dl1, hrun, hall1, _, _, hpres1, hmem1⟩ :=
            download_file_desc_stream net dl d chunks midErr hnd hall
          have hnetC : ∀ d' ∈ C, net d'.download_url ≠ .connectErr :=
            fun d' hd' => hnet d' (by simp [hd'])
          cases midErr with
          | false =>
              rcases hex : ungzip_file gunzip dl1 ex d.file_name with ⟨ex1, fb⟩
              obtain ⟨dl2, ex2, hloop, hall2, hpres2, hmem2⟩ := ih dl1 ex1 hall1 hnetC
              refine ⟨dl2, ex2, ?_, hall2, fun m hm => hpres2 m (hpres1 m hm), ?_⟩
              · simp [downloadLoop, hrun, pySubscript_descToJSON_name, hex, hloop]
              · intro d' hd'
                rcases List.mem_cons.mp hd' with h1 | h2
                · exact h1 ▸ hpres2 d.file_name hmem1
                · exact hmem2 d' h2
          | true =>
              obtain ⟨dl2, ex2, hloop, hall2, hpres2, hmem2⟩ := ih dl1 ex hall1 hnetC
              refine ⟨dl2, ex2, ?_, hall2, fun m hm => hpres2 m (hpres1 m hm), ?_⟩
              · simp [downloadLoop, hrun, hloop]
              · intro d' hd'
                rcases List.mem_cons.mp hd' with h1 | h2
                · exact h1 ▸ hpres2 d.file_name hmem1
                · exact hmem2 d' h2

theorem sync_files_manifestFor (H : Bytes → String) (net : String → NetResult)
    (gunzip : Bytes → Option Bytes) (C : List RemoteFileDescriptor) (dl ex : Dir)
    (hC : C ≠ []) :
    sync_files H net gunzip (manifestFor C) dl ex =
      match planLoop (C.map descToJSON) (get_local_files H dl) with
      | .error e => (dl, ex, some e)
      | .ok files_to_download => downloadLoop net gunzip dl ex files_to_download := by
  have hne : (C.map descToJSON) ≠ [] := by simpa using hC
  simp [sync_files, manifestFor, get_remote_files, pyGetMethod, pyTruthy, pyIter,
    List.isEmpty_iff, hne]

/-- C1. The claim says a failed manifest fetch (transport error, non-2xx
status, malformed or non-object body) is recoverable: the sync cycle treats
it as an empty catalog, logs, and terminates normally. The code refutes this:
`get_remote_files` returns the Python LIST `[]` in those cases (or a parsed
non-object value), and `sync_files` immediately calls
`.get("download_status", [])` on it — an attribute defined only on dicts — so
the cycle dies with an uncaught `AttributeError` instead of degrading to an
empty catalog. Only a parsed OBJECT body lacking the key degrades gracefully.
This theorem evaluates the code at the failing inputs: a transport error, any
error status in 400–599, an unparseable body, and a 2xx body that is a JSON
array all abort the cycle with `AttributeError` and no work done. -/
theorem sync_files_fetch_failure_is_fatal (H : Bytes → String) (net : String → NetResult)
    (gunzip : Bytes → Option Bytes) (dl ex : Dir) (status : Nat) (body : Option JSON)
    (hstatus : 400 ≤ status ∧ status < 600) :
    sync_files H net gunzip .transportError dl ex = (dl, ex, some .attributeError) ∧
    sync_files H net gunzip (.response status body) dl ex = (dl, ex, some .attributeError) ∧
    sync_files H net gunzip (.response 200 none) dl ex = (dl, ex, some .attributeError) ∧
    sync_files H net gunzip (.response 200 (some (.arr []))) dl ex
      = (dl, ex, some .attributeError) := by
  refine ⟨rfl, ?_, rfl, rfl⟩
  simp [sync_files, get_remote_files, hstatus, pyGetMethod]

theorem sync_files_fetch_failure_is_fatal_witness :
    sync_files (fun _ => "") (fun _ => .connectErr) (fun _ => none)
      (.response 404 (some (.obj [("download_status", .arr [])]))) [] []
      = ([], [], some .attributeError) :=
  (sync_files_fetch_failure_is_fatal (fun _ => "") (fun _ => .connectErr) (fun _ => none)
    [] [] 404 (some (.obj [("download_status", .arr [])])) (by decide)).2.1

/-- C2. For every catalog `C` and local inventory `I`, the planning loop of
`sync_files` computes exactly the sequence the specification's diff planner
describes: the descriptors of `C` whose `file_name` is not a key of `I`, in
`C`'s order, with no duplicates beyond those of `C` itself (the result is a
`filter` of `C`). -/
theorem planLoop_refines_specPlan (C : List RemoteFileDescriptor)
    (I : List (String × String)) :
    planLoop (C.map descToJSON) I = .ok ((specPlan C I).map descToJSON) :=
  planLoop_map_descToJSON C I

/-- C3. The claim says the decompressed artifact's name is the source file
name with only a trailing ".gz" suffix removed, no other characters altered.
The code uses `file_path.name.rstrip('.gz')`, and `str.rstrip` strips every
trailing character belonging to the SET {'.', 'g', 'z'}: decompressing a
downloaded file named "log.gz" writes the export artifact under the name
"lo", not "log" — the trailing 'g' of the stem is removed too. -/
theorem ungzip_file_rstrip_mangles_name :
    pyRstrip "log.gz" ".gz" = "lo" ∧
    ungzip_file (fun b => if b = [0x1f, 0x8b, 3] then some [7, 8] else none)
        [⟨"log.gz", true, .ok [0x1f, 0x8b, 3]⟩] [] "log.gz"
      = ([⟨"lo", true, .ok [7, 8]⟩], true) := by
  constructor
  · decide
  · decide

/-- C4. `ungzip_file` inspects exactly the first two bytes of the file: when
they are not `0x1F 0x8B` it performs no write on the export directory and
reports `True` (skip as success); when they are the gzip magic and the stream
decompresses to plaintext `plain`, it writes an artifact byte-equal to
`plain` into the export directory (under the rstrip-derived name) and
reports `True`. -/
theorem ungzip_file_signature_detection (gunzip : Bytes → Option Bytes) (dl ex : Dir)
    (file_name : String) (content : Bytes)
    (hread : readFile dl file_name = some (.ok content)) :
    (content.take 2 ≠ [0x1f, 0x8b] → ungzip_file gunzip dl ex file_name = (ex, true)) ∧
    (∀ plain ex', content.take 2 = [0x1f, 0x8b] → gunzip content = some plain →
      writeFile ex (pyRstrip file_name ".gz") plain = .ok ex' →
      ungzip_file gunzip dl ex file_name = (ex', true) ∧
      readFile ex' (pyRstrip file_name ".gz") = some (.ok plain)) := by
  constructor
  · intro h2
    simp [ungzip_file, hread, h2]
  · intro plain ex' h2 h3 h4
    exact ⟨by simp [ungzip_file, hread, h2, h3, h4],
      readFile_writeFile_self _ _ _ _ h4⟩

theorem ungzip_file_signature_detection_witness :
    (ungzip_file (fun b => if b = [0x1f, 0x8b, 1] then some [9] else none)
        [⟨"a.gz", true, .ok [0x1f, 0x8b, 1]⟩] [] "a.gz"
      = ([⟨"a", true, .ok [9]⟩], true) ∧
     readFile [⟨"a", true, .ok [9]⟩] "a" = some (.ok [9])) ∧
    ungzip_file (fun b => if b = [0x1f, 0x8b, 1] then some [9] else none)
        [⟨"b.txt", true, .ok [5, 6]⟩] [] "b.txt" = ([], true) := by
  have hpr : pyRstrip "a.gz" ".gz" = "a" := by decide
  constructor
  · have h := (ungzip_file_signature_detection
      (fun b => if b = [0x1f, 0x8b, 1] then some [9] else none)
      [⟨"a.gz", true, .ok [0x1f, 0x8b, 1]⟩] [] "a.gz" [0x1f, 0x8b, 1]
      (by decide)).2 [9] [⟨"a", true, .ok [9]⟩] (by decide) (by decide)
      (by rw [hpr]; decide)
    rwa [hpr] at h
  · exact (ungzip_file_signature_detection
      (fun b => if b = [0x1f, 0x8b, 1] then some [9] else none)
      [⟨"b.txt", true, .ok [5, 6]⟩] [] "b.txt" [5, 6] (by decide)).1 (by decide)

/-- C5. Failure isolation in the download loop: a transport error aborts only
the failing item's transfer. In a 3-item plan where only the second item's
connect fails, the loop finishes with no uncaught exception, items 1 and 3
are on disk with their full streamed bytes, and the slot of item 2's name is
exactly as it was before the run (a connect-phase failure writes nothing). -/
theorem downloadLoop_failure_isolation (net : String → NetResult)
    (gunzip : Bytes → Option Bytes) (dl ex : Dir) (d1 d2 d3 : RemoteFileDescriptor)
    (c1 c3 : List Bytes) (hall : allFiles dl)
    (h1 : net d1.download_url = .stream c1 false)
    (h2 : net d2.download_url = .connectErr)
    (h3 : net d3.download_url = .stream c3 false)
    (h31 : d3.file_name ≠ d1.file_name)
    (h21 : d2.file_name ≠ d1.file_name)
    (h23 : d2.file_name ≠ d3.file_name) :
    ∃ dl' ex', downloadLoop net gunzip dl ex ([d1, d2, d3].map descToJSON)
        = (dl', ex', none) ∧
      readFile dl' d1.file_name = some (.ok c1.flatten) ∧
      readFile dl' d3.file_name = some (.ok c3.flatten) ∧
      readFile dl' d2.file_name = readFile dl d2.file_name := by
  obtain ⟨dl1, hrun1, hall1, hread1, hne1, _, _⟩ :=
    download_file_desc_stream net dl d1 c1 false h1 hall
  rcases hex1 : ungzip_file gunzip dl1 ex d1.file_name with ⟨ex1, fb1⟩
  have hrun2 : download_file net dl1 (descToJSON d2) = (dl1, false, none) := by
    simp [download_file, pySubscript_descToJSON_url, pySubscript_descToJSON_name, h2]
  obtain ⟨dl2, hrun3, hall2, hread3, hne3, _, _⟩ :=
    download_file_desc_stream net dl1 d3 c3 false h3 hall1
  rcases hex3 : ungzip_file gunzip dl2 ex1 d3.file_name with ⟨ex2, fb3⟩
  refine ⟨dl2, ex2, ?_, ?_, hread3, ?_⟩
  · simp [downloadLoop, hrun1, pySubscript_descToJSON_name, hex1, hrun2, hrun3, hex3]
  · rw [hne3 d1.file_name (Ne.symm h31)]
    exact hread1
  · rw [hne3 d2.file_name h23, hne1 d2.file_name h21]

theorem downloadLoop_failure_isolation_witness :
    ∃ dl' ex', downloadLoop
        (fun u => if u = "u1" then .stream [[1]] false
          else if u = "u3" then .stream [[3]] false else .connectErr)
        (fun _ => none) [] []
        ([⟨"f1", "u1"⟩, ⟨"f2", "u2"⟩, ⟨"f3", "u3"⟩].map descToJSON)
        = (dl', ex', none) ∧
      readFile dl' "f1" = some (.ok [1]) ∧
      readFile dl' "f3" = some (.ok [3]) ∧
      readFile dl' "f2" = readFile [] "f2" :=
  downloadLoop_failure_isolation
    (fun u => if u = "u1" then .stream [[1]] false
      else if u = "u3" then .stream [[3]] false else .connectErr)
    (fun _ => none) [] [] ⟨"f1", "u1"⟩ ⟨"f2", "u2"⟩ ⟨"f3", "u3"⟩ [[1]] [[3]]
    (by intro e he; simp at he) (by decide) (by decide) (by decide)
    (by decide) (by decide) (by decide)

/-- C7. A read or hash failure on an individual file does not abort the
inventory scan: every regular file directly inside the directory appears as
a key of the inventory, and an entry whose read raises is assigned the empty
sentinel digest `""` (stated for directories without duplicate names, as on
a real filesystem). -/
theorem get_local_files_isolates_failures (H : Bytes → String) (d : Dir) (e : DirEntry)
    (he : e ∈ d) (hreg : e.isRegularFile) :
    ((get_local_files H d).lookup e.name).isSome = true ∧
    (e.content = .error () → (names d).Nodup →
      (get_local_files H d).lookup e.name = some "") := by
  constructor
  · rw [lookup_get_local_files_isSome]
    simp only [decide_eq_true_eq, fileNames, List.mem_map, List.mem_filter]
    exact ⟨e, ⟨he, hreg⟩, rfl⟩
  · intro herr hnod
    have h := lookup_get_local_files_of_nodup H d e hnod he hreg
    rw [herr] at h
    simpa [calculate_checksum] using h

theorem get_local_files_isolates_failures_witness :
    (List.lookup "bad" (get_local_files (fun _ => "db")
      [⟨"good", true, .ok [1]⟩, ⟨"bad", true, .error ()⟩])).isSome = true ∧
    List.lookup "bad" (get_local_files (fun _ => "db")
      [⟨"good", true, .ok [1]⟩, ⟨"bad", true, .error ()⟩]) = some "" := by
  have h := get_local_files_isolates_failures (fun _ => "db")
    [⟨"good", true, .ok [1]⟩, ⟨"bad", true, .error ()⟩] ⟨"bad", true, .error ()⟩
    (by simp) (by decide)
  exact ⟨h.1, h.2 rfl (by decide)⟩

/-- C9. The download is not atomic and planning is presence-only: when the
stream fails mid-transfer after some chunks were received, `download_file`
reports failure but leaves an incomplete file holding exactly the received
bytes at the destination name — and because that name is now a key of the
next inventory, the planning loop of every subsequent cycle selects nothing
for it, suppressing the re-download. -/
theorem download_file_midstream_failure_leaves_file (H : Bytes → String)
    (net : String → NetResult) (dl : Dir) (fi : JSON) (name url : String)
    (chunks : List Bytes)
    (hname : pySubscript fi "file_name" = .ok (.str name))
    (hurl : pySubscript fi "download_url" = .ok (.str url))
    (hnet : net url = .stream chunks true)
    (hall : allFiles dl) :
    ∃ dl', download_file net dl fi = (dl', false, none) ∧
      readFile dl' name = some (.ok chunks.flatten) ∧
      planLoop [fi] (get_local_files H dl') = .ok [] := by
  obtain ⟨dl', hw⟩ := writeFile_ok_of_allFiles dl name chunks.flatten hall
  refine ⟨dl', by simp [download_file, hname, hurl, hnet, hw],
    readFile_writeFile_self _ _ _ _ hw, ?_⟩
  have hmem : name ∈ fileNames dl' := self_mem_fileNames_writeFile _ _ _ _ hw
  have hsome : ((get_local_files H dl').lookup name).isSome = true := by
    rw [lookup_get_local_files_isSome]
    simp [hmem]
  simp [planLoop, hname, pyMem, hsome, Bind.bind, Except.bind, Pure.pure, Except.pure]

theorem download_file_midstream_failure_leaves_file_witness :
    ∃ dl', download_file (fun _ => .stream [[1], [2]] true) []
        (descToJSON ⟨"part.bin", "u"⟩) = (dl', false, none) ∧
      readFile dl' "part.bin" = some (.ok [1, 2]) ∧
      planLoop [descToJSON ⟨"part.bin", "u"⟩]
        (get_local_files (fun _ => "") dl') = .ok [] :=
  download_file_midstream_failure_leaves_file (fun _ => "")
    (fun _ => .stream [[1], [2]] true) [] (descToJSON ⟨"part.bin", "u"⟩)
    "part.bin" "u" [[1], [2]] rfl rfl rfl (by intro e he; simp at he)

/-- C8. The engine never deletes or removes a file: whatever the manifest,
the network, the decompressor and the starting directories — including every
failure branch, caught or uncaught — every entry name present in the download
directory before `sync_files` is still present afterwards (and regular files
stay regular files), and likewise for the export directory; in particular a
failed decompression leaves the downloaded compressed original in place. -/
theorem sync_files_never_deletes (H : Bytes → String) (net : String → NetResult)
    (gunzip : Bytes → Option Bytes) (manifest : FetchOutcome) (dl ex : Dir) :
    (∀ m, m ∈ names dl → m ∈ names (sync_files H net gunzip manifest dl ex).1) ∧
    (∀ m, m ∈ fileNames dl → m ∈ fileNames (sync_files H net gunzip manifest dl ex).1) ∧
    (∀ m, m ∈ names ex → m ∈ names (sync_files H net gunzip manifest dl ex).2.1) ∧
    (∀ m, m ∈ fileNames ex → m ∈ fileNames (sync_files H net gunzip manifest dl ex).2.1) := by
  cases h1 : pyGetMethod (get_remote_files manifest) "download_status" (.arr []) with
  | error e => simp [sync_files, h1]
  | ok remoteJ =>
      by_cases h2 : pyTruthy remoteJ = false
      · simp [sync_files, h1, h2]
      · cases h3 : pyIter remoteJ with
        | error e => simp [sync_files, h1, h2, h3]
        | ok remote_files =>
            cases h4 : planLoop remote_files (get_local_files H dl) with
            | error e => simp [sync_files, h1, h2, h3, h4]
            | ok files_to_download =>
                have h := downloadLoop_preserves net gunzip files_to_download dl ex
                constructor
                · intro m hm
                  simpa [sync_files, h1, h2, h3, h4] using h.1 m hm
                refine ⟨?_, ?_, ?_⟩
                · intro m hm
                  simpa [sync_files, h1, h2, h3, h4] using h.2.1 m hm
                · intro m hm
                  simpa [sync_files, h1, h2, h3, h4] using h.2.2.1 m hm
                · intro m hm
                  simpa [sync_files, h1, h2, h3, h4] using h.2.2.2 m hm

theorem sync_files_never_deletes_witness :
    "keep.gz" ∈ names ((sync_files (fun _ => "h") (fun _ => .connectErr) (fun _ => none)
      (manifestFor [⟨"new.bin", "u"⟩]) [⟨"keep.gz", true, .ok [1]⟩] []).1) :=
  (sync_files_never_deletes (fun _ => "h") (fun _ => .connectErr) (fun _ => none)
    (manifestFor [⟨"new.bin", "u"⟩]) [⟨"keep.gz", true, .ok [1]⟩] []).1 "keep.gz"
    (by simp [names])

theorem planLoop_missing_key_aborts (I : List (String × String))
    (pre : List RemoteFileDescriptor) (bad : List (String × JSON)) (rest : List JSON)
    (hbad : bad.lookup "file_name" = none) :
    planLoop (pre.map descToJSON ++ .obj bad :: rest) I = .error .keyError := by
  induction pre with
  | nil =>
      simp only [List.map_nil, List.nil_append]
      show (do
        let nameJ ← pySubscript (.obj bad) "file_name"
        let isLocal ← pyMem nameJ I
        let tail ← planLoop rest I
        if isLocal then pure tail else pure (.obj bad :: tail)) = _
      simp [pySubscript, hbad, Bind.bind, Except.bind]
  | cons d pre ih =>
      simp only [List.map_cons, List.cons_append]
      show (do
        let nameJ ← pySubscript (descToJSON d) "file_name"
        let isLocal ← pyMem nameJ I
        let tail ← planLoop (pre.map descToJSON ++ JSON.obj bad :: rest) I
        if isLocal then pure tail else pure (descToJSON d :: tail)) = _
      rw [pySubscript_descToJSON_name, ih]
      cases h : I.lookup d.file_name with
      | none => simp [pyMem, h, Bind.bind, Except.bind]
      | some v => simp [pyMem, h, Bind.bind, Except.bind]

/-- C10. Every catalog entry must carry a `file_name` key, and planned items
a `download_url` key: a catalog containing a dictionary entry without
`file_name` makes the planning loop raise an uncaught `KeyError` — the entry
is not skipped, the whole remainder of the cycle is aborted with both
directories untouched; likewise `download_file` on an entry without
`download_url` raises `KeyError` instead of downloading. -/
theorem sync_files_missing_key_aborts (H : Bytes → String) (net : String → NetResult)
    (gunzip : Bytes → Option Bytes) (dl ex : Dir) (pre : List RemoteFileDescriptor)
    (bad : List (String × JSON)) (rest : List JSON)
    (hbad : bad.lookup "file_name" = none)
    (hbadUrl : bad.lookup "download_url" = none) :
    sync_files H net gunzip (.response 200 (some (.obj [("download_status",
        .arr (pre.map descToJSON ++ .obj bad :: rest))]))) dl ex
      = (dl, ex, some .keyError) ∧
    download_file net dl (.obj bad) = (dl, false, some .keyError) := by
  constructor
  · have hplan := planLoop_missing_key_aborts (get_local_files H dl) pre bad rest hbad
    have hne : (pre.map descToJSON ++ .obj bad :: rest) ≠ [] := by simp
    simp [sync_files, get_remote_files, pyGetMethod, pyTruthy, pyIter,
      List.isEmpty_iff, hne, hplan]
  · simp [download_file, pySubscript, hbadUrl]

theorem sync_files_missing_key_aborts_witness :
    sync_files (fun _ => "h") (fun _ => .connectErr) (fun _ => none)
      (.response 200 (some (.obj [("download_status",
        .arr ([⟨"ok.bin", "u"⟩].map descToJSON ++ .obj [("size", .num 3)] :: []))])))
      [] [] = ([], [], some .keyError) ∧
    download_file (fun _ => .connectErr) [] (.obj [("size", .num 3)])
      = ([], false, some .keyError) :=
  sync_files_missing_key_aborts (fun _ => "h") (fun _ => .connectErr) (fun _ => none)
    [] [] [⟨"ok.bin", "u"⟩] [("size", .num 3)] [] rfl rfl

/-- C6 counterexample. The claim promises an empty plan on the second run
whenever the catalog is unchanged and the download directory is not
externally mutated — with no proviso about first-run transfer failures. It
fails on the code: with catalog `[{file_name: "a", download_url: "u"}]` and a
network whose connect always fails, the first run downloads nothing, so the
second run's planning loop selects the same entry again (the plan is not
empty). -/
theorem sync_files_rerun_nonempty_plan :
    planLoop ([(⟨"a", "u"⟩ : RemoteFileDescriptor)].map descToJSON)
      (get_local_files (fun _ => "h")
        ((sync_files (fun _ => "h") (fun _ => .connectErr) (fun _ => none)
          (manifestFor [⟨"a", "u"⟩]) [] []).1)) ≠ .ok [] := by
  intro hcontra
  have h : planLoop ([(⟨"a", "u"⟩ : RemoteFileDescriptor)].map descToJSON)
      (get_local_files (fun _ => "h")
        ((sync_files (fun _ => "h") (fun _ => .connectErr) (fun _ => none)
          (manifestFor [⟨"a", "u"⟩]) [] []).1))
      = Except.ok [descToJSON ⟨"a", "u"⟩] := rfl
  rw [h] at hcontra
  exact List.cons_ne_nil _ _ (Except.ok.inj hcontra)

/-- C6 (amended). Running the orchestrator a second time with the remote
catalog unchanged and no external mutation of the directories yields an empty
plan on the second run, PROVIDED no first-run transfer failed at the connect
phase (a mid-stream failure is fine: it still creates the destination file,
and presence-only planning then selects nothing). The unamended claim fails
when a connect fails — see the counterexample. -/
theorem sync_files_second_plan_empty (H : Bytes → String) (net : String → NetResult)
    (gunzip : Bytes → Option Bytes) (C : List RemoteFileDescriptor) (dl0 ex0 : Dir)
    (hall : allFiles dl0)
    (hnet : ∀ d ∈ C, net d.download_url ≠ .connectErr) :
    planLoop (C.map descToJSON)
      (get_local_files H (sync_files H net gunzip (manifestFor C) dl0 ex0).1)
      = .ok [] := by
  by_cases hCnil : C = []
  · subst hCnil; rfl
  · obtain ⟨dl1, ex1, hloop, hall1, hpres, hmem⟩ :=
      downloadLoop_desc_complete net gunzip (specPlan C (get_local_files H dl0)) dl0 ex0
        hall (fun d hd => hnet d (List.mem_of_mem_filter hd))
    have hsync : sync_files H net gunzip (manifestFor C) dl0 ex0 = (dl1, ex1, none) := by
      rw [sync_files_manifestFor H net gunzip C dl0 ex0 hCnil, planLoop_map_descToJSON]
      exact hloop
    rw [hsync, planLoop_map_descToJSON]
    have hempty : specPlan C (get_local_files H dl1) = [] := by
      rw [specPlan, List.filter_eq_nil_iff]
      intro d hd
      have hfile : d.file_name ∈ fileNames dl1 := by
        by_cases hloc : d.file_name ∈ fileNames dl0
        · exact hpres _ hloc
        · refine hmem d ?_
          rw [specPlan, List.mem_filter]
          refine ⟨hd, ?_⟩
          have h0 := lookup_get_local_files_isSome H dl0 d.file_name
          simp [h0, hloc]
      have h1 := lookup_get_local_files_isSome H dl1 d.file_name
      simp [h1, hfile]
    rw [hempty]
    rfl

theorem sync_files_second_plan_empty_witness :
    planLoop ([(⟨"a", "u"⟩ : RemoteFileDescriptor)].map descToJSON)
      (get_local_files (fun _ => "h")
        ((sync_files (fun _ => "h") (fun _ => .stream [[1]] false) (fun _ => none)
          (manifestFor [⟨"a", "u"⟩]) [] []).1)) = .ok [] :=
  sync_files_second_plan_empty (fun _ => "h") (fun _ => .stream [[1]] false)
    (fun _ => none) [⟨"a", "u"⟩] [] [] (by intro e he; simp at he) (by decide)
